import Mathlib

/-!
Shallow embedding of `rust-signatures` (src/lib.rs and src/main.rs).

The program computes print-imposition layout data: from an inclusive page
range it derives a page count, a sheet count (4 pages per sheet), a
signature count (16 pages per signature), per-signature page windows, and
an alphabetic signature label computed by a bijective base-26 scheme.

Modelling decisions:
* Rust `u32` values are modelled by `Nat`.  The signature-key encoder uses
  only `%`, `/` and a guarded decrement, so it never wraps on its `u32`
  domain and the unbounded model coincides with the source there.  The
  window arithmetic of `get_signatures` can wrap at in-range inputs, so it
  gets three embeddings: the overflow-free mathematical model
  (`get_signatures`), a faithful wrapping model with every operation
  reduced mod `2^32` in source evaluation order (`get_signatures_u32`,
  release-build semantics), and a checked model in which every `u32`
  addition, subtraction and multiplication returns `none` exactly when it
  would overflow or underflow (`checked_get_signatures`, the condition
  that panics in a debug build).  Window-value claims are settled against
  the faithful models, which agree with the mathematical one exactly where
  no operation overflows (`get_signatures_u32_eq`).
* The `u32 -> f32` cast in `DocumentInfo::new` is modelled exactly by
  `roundF32` (round to nearest, ties to even, 24-bit significand; valid for
  all `n < 2^32`).  The subsequent division by `4.0`/`16.0` (powers of two)
  and `.ceil()` are exact IEEE operations at these magnitudes, and the
  final `as u32` cast of an integer value `≤ 2^30` is exact, so
  `(n as f32 / d as f32).ceil() as u32 = (roundF32 n + (d-1)) / d` for
  `d ∈ {4, 16}` and `n < 2^32`.
-/

/-- `DOC_PAGES_PER_SHEET` from the source. -/
def DOC_PAGES_PER_SHEET : Nat := 4

/-- `DOC_PAGES_PER_SIGNATURE` from the source. -/
def DOC_PAGES_PER_SIGNATURE : Nat := 16

/-- Digits (indices into `ALPHABET`, least significant first) produced by the
loop of `get_signature_key`.  The Rust loop is a do-while: push `i % 26`,
set `i := i / 26`, stop if `i = 0`, else decrement `i` and repeat.  The
first argument is fuel bounding the iteration count; `sigKeyDigits` below
supplies sufficient fuel and `sigKeyDigits_eq` recovers the source-shaped
recursion. -/
def sigKeyDigitsAux : Nat → Nat → List Nat
  | 0, i => [i % 26]
  | fuel + 1, i =>
    if i / 26 = 0 then [i % 26]
    else (i % 26) :: sigKeyDigitsAux fuel (i / 26 - 1)

/-- The digit list of the `get_signature_key` loop, least significant first. -/
def sigKeyDigits (i : Nat) : List Nat := sigKeyDigitsAux i i

/-- Maps a digit `0..25` to its `ALPHABET` character `A..Z`
(`ALPHABET[d..d+1]` in the source). -/
def alphabetChar (d : Nat) : Char := Char.ofNat (65 + d)

/-- `get_signature_key` from the source: the bijective base-26 label of a
zero-based signature index.  The Rust code appends characters least
significant first and reverses the string at the end. -/
def get_signature_key (signature_i : Nat) : String :=
  String.mk (((sigKeyDigits signature_i).map alphabetChar).reverse)

/-- `Signature` struct from the source. -/
structure Signature where
  first_page : Nat
  last_page : Nat
  signature_key : String
deriving DecidableEq

/-- The body of the `get_signatures` loop for index `i`:
`first_page = 16 * i + first_page_of_document`, and `last_page` is the
candidate `(i + 1) * 16 + first_page_of_document - 1` capped at the
document's last page `first_page_of_document + num_pages - 1`. -/
def signatureWindow (first_page_of_document num_pages i : Nat) : Signature :=
  let last_page_of_document := first_page_of_document + num_pages - 1
  let last_page_of_signature := (i + 1) * DOC_PAGES_PER_SIGNATURE + first_page_of_document - 1
  { first_page := DOC_PAGES_PER_SIGNATURE * i + first_page_of_document
    last_page :=
      if last_page_of_signature < last_page_of_document then last_page_of_signature
      else last_page_of_document
    signature_key := get_signature_key i }

/-- `get_signatures` from the source: the loop pushes one window per
signature index `i ∈ 0..num_signatures`.  This is the overflow-free
mathematical model; `get_signatures_u32` below is the faithful `u32`
embedding with explicit wrapping, and the two agree exactly where no `u32`
operation overflows (`get_signatures_u32_eq`). -/
def get_signatures (first_page_of_document num_pages num_signatures : Nat) : List Signature :=
  (List.range num_signatures).map (signatureWindow first_page_of_document num_pages)

/-- Wrapping `u32` addition (release-build Rust semantics). -/
def wadd (a b : Nat) : Nat := (a + b) % 2 ^ 32

/-- Wrapping `u32` subtraction for operands below `2^32`. -/
def wsub (a b : Nat) : Nat := (a + 2 ^ 32 - b % 2 ^ 32) % 2 ^ 32

/-- Wrapping `u32` multiplication (release-build Rust semantics). -/
def wmul (a b : Nat) : Nat := (a * b) % 2 ^ 32

/-- The body of the `get_signatures` loop with faithful wrapping `u32`
arithmetic in source evaluation order: `first + num_pages - 1`,
`(i + 1) * 16 + first - 1` and `16 * i + first`, each step reduced mod
`2^32`.  This is what a release build computes; a debug build panics at
exactly the inputs where some step here wraps (`checkedSignature`). -/
def signatureWindowU32 (first_page_of_document num_pages i : Nat) : Signature :=
  let last_page_of_document := wsub (wadd first_page_of_document num_pages) 1
  let last_page_of_signature :=
    wsub (wadd (wmul (wadd i 1) DOC_PAGES_PER_SIGNATURE) first_page_of_document) 1
  { first_page := wadd (wmul DOC_PAGES_PER_SIGNATURE i) first_page_of_document
    last_page :=
      if last_page_of_signature < last_page_of_document then last_page_of_signature
      else last_page_of_document
    signature_key := get_signature_key i }

/-- `get_signatures` with faithful wrapping `u32` arithmetic. -/
def get_signatures_u32 (first_page_of_document num_pages num_signatures : Nat) : List Signature :=
  (List.range num_signatures).map (signatureWindowU32 first_page_of_document num_pages)

/-- The distance from an `f32`-representable value to the next for numbers in
the binade of `n`: `2^(bitlength n - 24)`.  Written by explicit range
comparison so it evaluates by kernel reduction; valid for `2^24 < n < 2^32`
(at `n = 2^32` the value is exactly representable so the coarser spacing is
irrelevant). -/
def f32ulp (n : Nat) : Nat :=
  if n < 2 ^ 25 then 2
  else if n < 2 ^ 26 then 4
  else if n < 2 ^ 27 then 8
  else if n < 2 ^ 28 then 16
  else if n < 2 ^ 29 then 32
  else if n < 2 ^ 30 then 64
  else if n < 2 ^ 31 then 128
  else 256

/-- Exact model of the Rust `n as f32` cast for `n < 2^32`: round to the
nearest multiple of the binade spacing, ties to even significand.  Numbers
up to `2^24` are exactly representable. -/
def roundF32 (n : Nat) : Nat :=
  if n ≤ 2 ^ 24 then n
  else
    let u := f32ulp n
    let q := n / u
    let r := n % u
    if r < u / 2 then q * u
    else if u / 2 < r then (q + 1) * u
    else if q % 2 = 0 then q * u else (q + 1) * u

/-- `DocumentInfo` struct from the source. -/
structure DocumentInfo where
  num_pages : Nat
  num_sheets : Nat
  num_signatures : Nat
  signatures : List Signature
deriving DecidableEq

/-- `DocumentInfo::new` from the source.  The sheet and signature counts are
`(num_pages as f32 / d as f32).ceil() as u32` in Rust; with the exact `f32`
cast model `roundF32`, exact power-of-two division, exact `ceil`, and exact
narrowing of the integer result, this equals `(roundF32 num_pages + d - 1) / d`. -/
def DocumentInfo.new (first_number second_number : Nat) : DocumentInfo :=
  let num_pages := second_number - first_number + 1
  let num_sheets := (roundF32 num_pages + (DOC_PAGES_PER_SHEET - 1)) / DOC_PAGES_PER_SHEET
  let num_signatures :=
    (roundF32 num_pages + (DOC_PAGES_PER_SIGNATURE - 1)) / DOC_PAGES_PER_SIGNATURE
  let signatures := get_signatures first_number num_pages num_signatures
  { num_pages, num_sheets, num_signatures, signatures }

/-- Model of Rust `str::parse::<u32>()`: an optional leading `+`, then one or
more ASCII digits, value below `2^32`; anything else (including the empty
string and overflow) is a parse error, modelled as `none`. -/
def parseU32 (s : String) : Option Nat :=
  let chars := if s.data.head? = some '+' then s.data.tail else s.data
  if chars = [] then none
  else if chars.all (fun c => c.isDigit) then
    let v := chars.foldl (fun acc c => acc * 10 + (c.toNat - 48)) 0
    if v < 2 ^ 32 then some v else none
  else none

/-- The error variants returned by `parse_args`: `NeedTwoArgumentsError`,
the `ParseIntError` propagated by `?` (tagged here with which argument
failed and its raw text, as in the `main.rs` variant's messages),
`PageZeroError`, and `SecondNumberGreaterError`. -/
inductive ParseArgsError where
  | needTwoArguments (received_args : List String)
  | malformedNumber (which : Nat) (raw : String)
  | pageZero
  | secondNumberGreater (first_number second_number : Nat)
deriving DecidableEq

/-- `parse_args` from the source.  The outer `Option` models panic: the Rust
code takes the slice `all_args[1..]` before any check, which panics when the
vector is empty (`none` here); otherwise the checks run in source order:
fewer than two remaining arguments, first argument unparsable, second
argument unparsable, first number zero, second number below first. -/
def parse_args (all_args : List String) : Option (Except ParseArgsError (Nat × Nat)) :=
  match all_args with
  | [] => none
  | _ :: args =>
    some (match args with
      | first_arg :: second_arg :: _ =>
        (match parseU32 first_arg with
         | none => Except.error (ParseArgsError.malformedNumber 0 first_arg)
         | some first_number =>
           match parseU32 second_arg with
           | none => Except.error (ParseArgsError.malformedNumber 1 second_arg)
           | some second_number =>
             if first_number = 0 then Except.error ParseArgsError.pageZero
             else if second_number < first_number then
               Except.error (ParseArgsError.secondNumberGreater first_number second_number)
             else Except.ok (first_number, second_number))
      | _ => Except.error (ParseArgsError.needTwoArguments all_args))

/-- Checked `u32` addition: `none` models the arithmetic-overflow panic of a
debug build (and the wrap of a release build, which equally violates the
claimed absence of overflow). -/
def addU32 (a b : Nat) : Option Nat :=
  if a + b < 2 ^ 32 then some (a + b) else none

/-- Checked `u32` subtraction (underflow check). -/
def subU32 (a b : Nat) : Option Nat :=
  if b ≤ a then some (a - b) else none

/-- Checked `u32` multiplication (overflow check). -/
def mulU32 (a b : Nat) : Option Nat :=
  if a * b < 2 ^ 32 then some (a * b) else none

/-- Collects a list of optional values, failing if any is `none`. -/
def allSome {α : Type} : List (Option α) → Option (List α)
  | [] => some []
  | none :: _ => none
  | some a :: rest => (allSome rest).map (a :: ·)

/-- The body of the `get_signatures` loop with every `u32` operation checked,
in source evaluation order: `(i + 1) * 16 + first - 1` and `16 * i + first`. -/
def checkedSignature (first_page_of_document last_page_of_document i : Nat) :
    Option Signature := do
  let t0 ← addU32 i 1
  let t1 ← mulU32 t0 DOC_PAGES_PER_SIGNATURE
  let t2 ← addU32 t1 first_page_of_document
  let last_page_of_signature ← subU32 t2 1
  let t3 ← mulU32 DOC_PAGES_PER_SIGNATURE i
  let first_page ← addU32 t3 first_page_of_document
  pure { first_page
         last_page :=
           if last_page_of_signature < last_page_of_document then last_page_of_signature
           else last_page_of_document
         signature_key := get_signature_key i }

/-- `get_signatures` with checked `u32` arithmetic; in particular
`first + num_pages - 1` is evaluated left to right, so `first + num_pages`
must already fit in `u32`. -/
def checked_get_signatures (first_page_of_document num_pages num_signatures : Nat) :
    Option (List Signature) := do
  let t0 ← addU32 first_page_of_document num_pages
  let last_page_of_document ← subU32 t0 1
  allSome ((List.range num_signatures).map
    (checkedSignature first_page_of_document last_page_of_document))

/-- `DocumentInfo::new` with checked `u32` arithmetic.  The `f32` pipeline for
the sheet and signature counts cannot overflow (`f32` easily holds `2^32`
and the ceiling results are at most `2^30`), so only the integer operations
are checked. -/
def checked_DocumentInfo_new (first_number second_number : Nat) : Option DocumentInfo := do
  let d ← subU32 second_number first_number
  let num_pages ← addU32 d 1
  let num_sheets := (roundF32 num_pages + (DOC_PAGES_PER_SHEET - 1)) / DOC_PAGES_PER_SHEET
  let num_signatures :=
    (roundF32 num_pages + (DOC_PAGES_PER_SIGNATURE - 1)) / DOC_PAGES_PER_SIGNATURE
  let signatures ← checked_get_signatures first_number num_pages num_signatures
  pure { num_pages, num_sheets, num_signatures, signatures }

/-- Colexicographic comparison of equal-length digit lists given least
significant digit first: later (more significant) positions dominate. -/
def colexLt : List Nat → List Nat → Prop
  | _, [] => False
  | [], _ :: _ => True
  | a :: as, b :: bs => colexLt as bs ∨ (as = bs ∧ a < b)

instance colexLtDec : (l1 l2 : List Nat) → Decidable (colexLt l1 l2)
  | [], [] => isFalse (fun h => h)
  | _ :: _, [] => isFalse (fun h => h)
  | [], _ :: _ => isTrue trivial
  | _ :: as, _ :: bs =>
    have := colexLtDec as bs
    inferInstanceAs (Decidable (_ ∨ _ ∧ _))

/-- Lexicographic comparison of digit lists, most significant digit first. -/
def dlexLt : List Nat → List Nat → Prop
  | _, [] => False
  | [], _ :: _ => True
  | a :: as, b :: bs => a < b ∨ (a = b ∧ dlexLt as bs)

instance dlexLtDec : (l1 l2 : List Nat) → Decidable (dlexLt l1 l2)
  | [], [] => isFalse (fun h => h)
  | _ :: _, [] => isFalse (fun h => h)
  | [], _ :: _ => isTrue trivial
  | _ :: as, _ :: bs =>
    have := dlexLtDec as bs
    inferInstanceAs (Decidable (_ ∨ _ ∧ _))

/-- Lexicographic comparison of character lists (by code point). -/
def clexLt : List Char → List Char → Prop
  | _, [] => False
  | [], _ :: _ => True
  | a :: as, b :: bs => a < b ∨ (a = b ∧ clexLt as bs)

instance clexLtDec : (l1 l2 : List Char) → Decidable (clexLt l1 l2)
  | [], [] => isFalse (fun h => h)
  | _ :: _, [] => isFalse (fun h => h)
  | [], _ :: _ => isTrue trivial
  | _ :: as, _ :: bs =>
    have := clexLtDec as bs
    inferInstanceAs (Decidable (_ ∨ _ ∧ _))

/-- The ordering of the spec's order-preservation property: compare string
length first, then lexicographically. -/
def keyBefore (s t : String) : Prop :=
  s.length < t.length ∨ (s.length = t.length ∧ clexLt s.data t.data)

instance (s t : String) : Decidable (keyBefore s t) :=
  inferInstanceAs (Decidable (_ ∨ _ ∧ _))

theorem sigKeyDigitsAux_congr :
    ∀ f1 f2 i, i ≤ f1 → i ≤ f2 → sigKeyDigitsAux f1 i = sigKeyDigitsAux f2 i := by
  intro f1
  induction f1 with
  | zero =>
    intro f2 i h1 _
    interval_cases i
    cases f2 <;> simp [sigKeyDigitsAux]
  | succ f1 ih =>
    intro f2 i h1 h2
    cases f2 with
    | zero =>
      interval_cases i
      simp [sigKeyDigitsAux]
    | succ f2 =>
      simp only [sigKeyDigitsAux]
      by_cases h : i / 26 = 0
      · simp [h]
      · simp only [h, if_false]
        have hd : i / 26 - 1 ≤ f1 := by
          have := Nat.div_le_self i 26
          omega
        have hd2 : i / 26 - 1 ≤ f2 := by
          have := Nat.div_le_self i 26
          omega
        rw [ih f2 (i / 26 - 1) hd hd2]

/-- Source-shaped unfolding of the `get_signature_key` loop. -/
theorem sigKeyDigits_eq (i : Nat) :
    sigKeyDigits i =
      if i / 26 = 0 then [i % 26] else (i % 26) :: sigKeyDigits (i / 26 - 1) := by
  unfold sigKeyDigits
  cases hi : i with
  | zero => simp [sigKeyDigitsAux]
  | succ m =>
    simp only [sigKeyDigitsAux]
    by_cases h : (m + 1) / 26 = 0
    · simp [h]
    · simp only [h, if_false]
      have hd : (m + 1) / 26 - 1 ≤ m := by
        have := Nat.div_le_self (m + 1) 26
        omega
      rw [sigKeyDigitsAux_congr m ((m + 1) / 26 - 1) ((m + 1) / 26 - 1) hd (Nat.le_refl _)]

/-- Claim C1: the signature-key encoder satisfies the spec's fixed-point
table, `get_signature_key 0 = "A"` through `get_signature_key 702 = "AAA"`. -/
theorem get_signature_key_fixed_points :
    get_signature_key 0 = "A" ∧ get_signature_key 25 = "Z" ∧
    get_signature_key 26 = "AA" ∧ get_signature_key 27 = "AB" ∧
    get_signature_key 51 = "AZ" ∧ get_signature_key 52 = "BA" ∧
    get_signature_key 701 = "ZZ" ∧ get_signature_key 702 = "AAA" := by
  refine ⟨?_, ?_, ?_, ?_, ?_, ?_, ?_, ?_⟩ <;> rfl

theorem get_signatures_len (first n s : Nat) : (get_signatures first n s).length = s := by
  simp [get_signatures]

theorem get_signatures_getElem? (first n s i : Nat) (hi : i < s) :
    (get_signatures first n s)[i]? = some (signatureWindow first n i) := by
  simp [get_signatures, List.getElem?_map, List.getElem?_range hi]

theorem get_signatures_concat (first n t : Nat) :
    get_signatures first n (t + 1) =
      get_signatures first n t ++ [signatureWindow first n t] := by
  unfold get_signatures
  rw [List.range_succ, List.map_append]
  rfl

theorem signatureWindowU32_eq (first n i : Nat) (h1 : 1 ≤ first) (hfn : first + n < 2 ^ 32)
    (hov : (i + 1) * 16 + first < 2 ^ 32) :
    signatureWindowU32 first n i = signatureWindow first n i := by
  have e1 : wadd i 1 = i + 1 := by unfold wadd; omega
  have e2 : wmul (i + 1) DOC_PAGES_PER_SIGNATURE = (i + 1) * 16 := by
    unfold wmul DOC_PAGES_PER_SIGNATURE; omega
  have e3 : wadd ((i + 1) * 16) first = (i + 1) * 16 + first := by unfold wadd; omega
  have e4 : wsub ((i + 1) * 16 + first) 1 = (i + 1) * 16 + first - 1 := by
    unfold wsub; omega
  have e5 : wmul DOC_PAGES_PER_SIGNATURE i = 16 * i := by
    unfold wmul DOC_PAGES_PER_SIGNATURE; omega
  have e6 : wadd (16 * i) first = 16 * i + first := by unfold wadd; omega
  have e7 : wadd first n = first + n := by unfold wadd; omega
  have e8 : wsub (first + n) 1 = first + n - 1 := by unfold wsub; omega
  unfold signatureWindowU32 signatureWindow
  simp only [e1, e2, e3, e4, e5, e6, e7, e8]
  have e9 : (i + 1) * DOC_PAGES_PER_SIGNATURE + first - 1 = (i + 1) * 16 + first - 1 := by
    unfold DOC_PAGES_PER_SIGNATURE; omega
  have e10 : DOC_PAGES_PER_SIGNATURE * i + first = 16 * i + first := by
    unfold DOC_PAGES_PER_SIGNATURE; omega
  rw [e9, e10]

theorem get_signatures_u32_eq (first n s : Nat) (h1 : 1 ≤ first) (hfn : first + n < 2 ^ 32)
    (hov : 16 * s + first < 2 ^ 32) :
    get_signatures_u32 first n s = get_signatures first n s := by
  unfold get_signatures_u32 get_signatures
  apply List.map_congr_left
  intro i hi
  rw [List.mem_range] at hi
  exact signatureWindowU32_eq first n i h1 hfn (by omega)

/-- Claim C6: `get_signatures` returns exactly `signatureCount` windows, and
the empty sequence when `signatureCount` is `0`. -/
theorem get_signatures_count (first n s : Nat) (h1 : 1 ≤ first) (h2 : 1 ≤ n) :
    (get_signatures first n s).length = s ∧ get_signatures first n 0 = [] :=
  ⟨get_signatures_len first n s, rfl⟩

theorem get_signatures_count_witness :
    (get_signatures 1 1 3).length = 3 ∧ get_signatures 1 1 0 = [] :=
  get_signatures_count 1 1 3 (by decide) (by decide)

/-- Counterexample to claim C4 as stated: at the `u32`-representable input
`firstPageOfDocument = 4294967295`, `pageCount = 1`, `signatureCount = 1`,
`i = 0`, the source's `u32` arithmetic wraps: `(0 + 1) * 16 + 4294967295`
wraps to `15`, minus `1` gives a candidate last page of `14`, and
`4294967295 + 1` wraps to `0`, minus `1` wraps to `4294967295`, so a release
build produces the window `[4294967295, 14]` — its last page `14` is not the
claimed `min(first + 16 - 1, first + pageCount - 1) = 4294967295` — while a
debug build panics on the overflow (the checked embedding returns `none`). -/
theorem get_signatures_window_formula_cex :
    (get_signatures_u32 4294967295 1 1)[0]? =
      some { first_page := 4294967295, last_page := 14
             signature_key := get_signature_key 0 }
  ∧ (14 : Nat) ≠ min (4294967295 + (0 + 1) * 16 - 1) (4294967295 + 1 - 1)
  ∧ checked_get_signatures 4294967295 1 1 = none :=
  ⟨rfl, by decide, rfl⟩

/-- Claim C4 (amended): provided the window's `u32` arithmetic does not
overflow — `firstPageOfDocument + pageCount < 2^32` and
`(i + 1) * 16 + firstPageOfDocument < 2^32` — the `i`-th window produced by
the faithful wrapping-`u32` embedding of `get_signatures` (which a debug
build then also reaches without panicking) has
`first_page = firstPageOfDocument + i * 16`,
`last_page = min (firstPageOfDocument + (i+1)*16 - 1) (firstPageOfDocument + pageCount - 1)`,
and `signature_key = get_signature_key i`.  Without those bounds the source
wraps or panics (see the counterexample). -/
theorem get_signatures_window_formula (first n s i : Nat) (h1 : 1 ≤ first) (h2 : 1 ≤ n)
    (hi : i < s) (hfn : first + n < 2 ^ 32) (hov : (i + 1) * 16 + first < 2 ^ 32) :
    (get_signatures_u32 first n s)[i]? =
      some { first_page := first + i * 16
             last_page := min (first + (i + 1) * 16 - 1) (first + n - 1)
             signature_key := get_signature_key i } := by
  have hget : (get_signatures_u32 first n s)[i]? = some (signatureWindowU32 first n i) := by
    simp [get_signatures_u32, List.getElem?_map, List.getElem?_range hi]
  rw [hget, signatureWindowU32_eq first n i h1 hfn hov]
  unfold signatureWindow DOC_PAGES_PER_SIGNATURE
  simp only [Option.some.injEq, Signature.mk.injEq]
  refine ⟨by omega, ?_, trivial⟩
  rw [Nat.min_def]
  split <;> split <;> omega

theorem get_signatures_window_formula_witness :
    (get_signatures_u32 5 19 2)[1]? =
      some { first_page := 5 + 1 * 16
             last_page := min (5 + (1 + 1) * 16 - 1) (5 + 19 - 1)
             signature_key := get_signature_key 1 } :=
  get_signatures_window_formula 5 19 2 1 (by decide) (by decide) (by decide) (by decide)
    (by decide)

theorem sum_window_sizes (first n : Nat) (h1 : 1 ≤ first) :
    ∀ t, 16 * (t - 1) < n →
      ((get_signatures first n t).map (fun w => w.last_page - w.first_page + 1)).sum
        = min (16 * t) n := by
  intro t
  induction t with
  | zero => simp [get_signatures]
  | succ t ih =>
    intro ht
    rw [get_signatures_concat, List.map_append, List.sum_append,
      ih (by omega)]
    have hsize :
        ((signatureWindow first n t).last_page - (signatureWindow first n t).first_page + 1)
          = min (16 * (t + 1)) n - 16 * t := by
      unfold signatureWindow DOC_PAGES_PER_SIGNATURE
      simp only
      split <;> omega
    simp only [List.map_cons, List.map_nil, List.sum_cons, List.sum_nil, hsize]
    omega

/-- Counterexample to claim C3 as stated: `firstPageOfDocument = 4294967295`,
`pageCount = 1` is a `u32`-representable input with
`signatureCount = ceil(1/16) = 1`, yet the source's `u32` arithmetic wraps
and a release build produces the single window `[4294967295, 14]`: its last
page `14` is not the claimed `firstPageOfDocument + pageCount - 1 =
4294967295`, and the window sizes cannot sum to `pageCount = 1` since the
window's last page lies below its first page.  A debug build panics on the
same overflow (the checked embedding returns `none`). -/
theorem get_signatures_partition_invariants_cex :
    (1 : Nat) = (1 + 15) / 16
  ∧ (get_signatures_u32 4294967295 1 1).getLast? =
      some { first_page := 4294967295, last_page := 14
             signature_key := get_signature_key 0 }
  ∧ (14 : Nat) ≠ 4294967295 + 1 - 1
  ∧ ¬ (4294967295 : Nat) ≤ 14
  ∧ checked_get_signatures 4294967295 1 1 = none :=
  ⟨rfl, rfl, by decide, by decide, rfl⟩

/-- Claim C3 (amended): with `signatureCount = ceil(pageCount / 16)`, and
provided the `u32` window arithmetic does not overflow
(`16 * signatureCount + firstPageOfDocument < 2^32`, which also bounds
`firstPageOfDocument + pageCount`), the windows of the faithful
wrapping-`u32` embedding of `get_signatures` (which a debug build then also
computes without panicking) are contiguous (each window's last page plus one
is the next window's first page), non-overlapping (each window satisfies
`first_page ≤ last_page`, so with contiguity the windows are disjoint),
their sizes sum to `pageCount`, and the final window ends at
`firstPageOfDocument + pageCount - 1`.  Without the bound the source wraps
or panics (see the counterexample). -/
theorem get_signatures_partition_invariants (first n s : Nat) (h1 : 1 ≤ first) (h2 : 1 ≤ n)
    (hs : s = (n + 15) / 16) (hov : 16 * s + first < 2 ^ 32) :
    (∀ k w1 w2, (get_signatures_u32 first n s)[k]? = some w1 →
        (get_signatures_u32 first n s)[k + 1]? = some w2 → w1.last_page + 1 = w2.first_page)
  ∧ (∀ w ∈ get_signatures_u32 first n s, w.first_page ≤ w.last_page)
  ∧ ((get_signatures_u32 first n s).map (fun w => w.last_page - w.first_page + 1)).sum = n
  ∧ (∀ w, (get_signatures_u32 first n s).getLast? = some w → w.last_page = first + n - 1) := by
  have hfn : first + n < 2 ^ 32 := by omega
  rw [get_signatures_u32_eq first n s h1 hfn hov]
  refine ⟨?_, ?_, ?_, ?_⟩
  · intro k w1 w2 hk1 hk2
    have hk1' : k < s := by
      by_contra hcon
      rw [List.getElem?_eq_none (by rw [get_signatures_len]; omega)] at hk1
      exact Option.noConfusion hk1
    have hk2' : k + 1 < s := by
      by_contra hcon
      rw [List.getElem?_eq_none (by rw [get_signatures_len]; omega)] at hk2
      exact Option.noConfusion hk2
    rw [get_signatures_getElem? first n s k hk1'] at hk1
    rw [get_signatures_getElem? first n s (k + 1) hk2'] at hk2
    cases hk1
    cases hk2
    unfold signatureWindow DOC_PAGES_PER_SIGNATURE
    simp only
    split <;> omega
  · intro w hw
    rw [get_signatures, List.mem_map] at hw
    obtain ⟨i, hi, hwi⟩ := hw
    rw [List.mem_range] at hi
    subst hwi
    unfold signatureWindow DOC_PAGES_PER_SIGNATURE
    simp only
    split <;> omega
  · rw [sum_window_sizes first n h1 s (by omega)]
    omega
  · intro w hw
    have hs1 : s = (s - 1) + 1 := by omega
    rw [hs1, get_signatures_concat, List.getLast?_concat] at hw
    cases hw
    unfold signatureWindow DOC_PAGES_PER_SIGNATURE
    simp only
    split <;> omega

theorem get_signatures_partition_invariants_witness :
    ((get_signatures_u32 1 20 2).map (fun w => w.last_page - w.first_page + 1)).sum = 20 :=
  (get_signatures_partition_invariants 1 20 2 (by decide) (by decide) (by decide)
    (by decide)).2.2.1

/-- Claim C7: `parse_args` applies its checks in source order, short-circuiting
on the first failure: fewer than two arguments after the program name gives the
insufficient-arguments error; an unparsable argument gives the malformed-number
error for the first failing argument; a parsed first number equal to `0` gives
the page-zero error; a second number below the first gives the range-order
error; otherwise the pair is returned.  The spec's three concrete examples are
included. -/
theorem parse_args_check_order :
    (∀ p : String, parse_args [p] = some (Except.error (ParseArgsError.needTwoArguments [p])))
  ∧ (∀ p a : String,
      parse_args [p, a] = some (Except.error (ParseArgsError.needTwoArguments [p, a])))
  ∧ (∀ (p a b : String) (rest : List String), parseU32 a = none →
      parse_args (p :: a :: b :: rest) =
        some (Except.error (ParseArgsError.malformedNumber 0 a)))
  ∧ (∀ (p a b : String) (rest : List String) (na : Nat), parseU32 a = some na →
      parseU32 b = none →
      parse_args (p :: a :: b :: rest) =
        some (Except.error (ParseArgsError.malformedNumber 1 b)))
  ∧ (∀ (p a b : String) (rest : List String) (nb : Nat), parseU32 a = some 0 →
      parseU32 b = some nb →
      parse_args (p :: a :: b :: rest) = some (Except.error ParseArgsError.pageZero))
  ∧ (∀ (p a b : String) (rest : List String) (na nb : Nat), parseU32 a = some na →
      0 < na → parseU32 b = some nb → nb < na →
      parse_args (p :: a :: b :: rest) =
        some (Except.error (ParseArgsError.secondNumberGreater na nb)))
  ∧ (∀ (p a b : String) (rest : List String) (na nb : Nat), parseU32 a = some na →
      0 < na → parseU32 b = some nb → na ≤ nb →
      parse_args (p :: a :: b :: rest) = some (Except.ok (na, nb)))
  ∧ parse_args ["prog", "0", "60"] = some (Except.error ParseArgsError.pageZero)
  ∧ parse_args ["prog", "33", "32"] =
      some (Except.error (ParseArgsError.secondNumberGreater 33 32))
  ∧ parse_args ["prog", "abc", "60"] =
      some (Except.error (ParseArgsError.malformedNumber 0 "abc")) := by
  refine ⟨fun p => rfl, fun p a => rfl, ?_, ?_, ?_, ?_, ?_, rfl, rfl, rfl⟩
  · intro p a b rest ha
    simp [parse_args, ha]
  · intro p a b rest na ha hb
    simp [parse_args, ha, hb]
  · intro p a b rest nb ha hb
    simp [parse_args, ha, hb]
  · intro p a b rest na nb ha hna hb hlt
    have hna0 : ¬ (na = 0) := by omega
    simp [parse_args, ha, hb, hna0, hlt]
  · intro p a b rest na nb ha hna hb hle
    have hna0 : ¬ (na = 0) := by omega
    have hlt0 : ¬ (nb < na) := by omega
    simp [parse_args, ha, hb, hna0, hlt0]

theorem parse_args_check_order_witness :
    parse_args ["p"] = some (Except.error (ParseArgsError.needTwoArguments ["p"])) :=
  parse_args_check_order.1 "p"

/-- Claim C10: calling `parse_args` with an empty vector hits the slice
`all_args[1..]` and panics (modelled by `none`) instead of returning the
insufficient-arguments error; any result at all, in particular the
insufficient-arguments error, is only returned when the vector has at least
one element. -/
theorem parse_args_empty_panics :
    parse_args [] = none
  ∧ (∀ l : List String, 1 ≤ l.length → parse_args l ≠ none)
  ∧ (∀ (l : List String) (r : List String),
      parse_args l = some (Except.error (ParseArgsError.needTwoArguments r)) →
      1 ≤ l.length) := by
  refine ⟨rfl, ?_, ?_⟩
  · intro l hl
    match l with
    | _ :: _ => simp [parse_args]
  · intro l r hr
    match l with
    | [] => simp [parse_args] at hr
    | _ :: _ => simp

theorem parse_args_empty_panics_witness : parse_args ["x"] ≠ none :=
  parse_args_empty_panics.2.1 ["x"] (by decide)

theorem roundF32_small (n : Nat) (h : n ≤ 2 ^ 24) : roundF32 n = n := by
  unfold roundF32
  rw [if_pos h]

/-- Claim C5 (amended): for a validated range whose page count does not exceed
`2^24` (the largest width at which the `u32 -> f32` cast is always exact),
`DocumentInfo::new` produces `num_pages = last - first + 1`,
`num_sheets = ceil(num_pages / 4)` and `num_signatures = ceil(num_pages / 16)`
with exact mathematical ceiling division.  Beyond `2^24` pages the `f32`
rounding of `num_pages` can change the result (see the counterexample). -/
theorem DocumentInfo_new_counts (first second : Nat) (h1 : 1 ≤ first) (h2 : first ≤ second)
    (hsmall : second - first + 1 ≤ 2 ^ 24) :
    (DocumentInfo.new first second).num_pages = second - first + 1
  ∧ (DocumentInfo.new first second).num_sheets = (second - first + 1 + 3) / 4
  ∧ (DocumentInfo.new first second).num_signatures = (second - first + 1 + 15) / 16 := by
  refine ⟨rfl, ?_, ?_⟩ <;>
    simp [DocumentInfo.new, DOC_PAGES_PER_SHEET, DOC_PAGES_PER_SIGNATURE,
      roundF32_small _ hsmall]

theorem DocumentInfo_new_counts_witness :
    (DocumentInfo.new 1 60).num_pages = 60
  ∧ (DocumentInfo.new 1 60).num_sheets = (60 + 3) / 4
  ∧ (DocumentInfo.new 1 60).num_signatures = (60 + 15) / 16 :=
  DocumentInfo_new_counts 1 60 (by decide) (by decide) (by decide)

/-- Counterexample to claim C5 as stated: at the validated range
`(1, 16777217)` the page count is `2^24 + 1`; the `u32 -> f32` cast rounds it
to `2^24` (tie to even), so the code returns `num_sheets = 4194304` and
`num_signatures = 1048576`, while exact ceiling division gives `4194305`
sheets and `1048577` signatures. -/
theorem DocumentInfo_new_counts_cex :
    (DocumentInfo.new 1 16777217).num_pages = 16777217
  ∧ (DocumentInfo.new 1 16777217).num_sheets = 4194304
  ∧ (DocumentInfo.new 1 16777217).num_signatures = 1048576
  ∧ (DocumentInfo.new 1 16777217).num_sheets ≠ (16777217 + 3) / 4
  ∧ (DocumentInfo.new 1 16777217).num_signatures ≠ (16777217 + 15) / 16 :=
  ⟨rfl, rfl, rfl, by decide, by decide⟩

theorem allSome_map {α β : Type} (l : List α) (f : α → Option β) (g : α → β)
    (h : ∀ x ∈ l, f x = some (g x)) : allSome (l.map f) = some (l.map g) := by
  induction l with
  | nil => rfl
  | cons a l ih =>
    simp only [List.map_cons]
    rw [h a (by simp), allSome, ih (fun x hx => h x (by simp [hx]))]
    rfl

/-- Claim C8 (amended): `DocumentInfo::new` completes without error, panic or
`u32` overflow on a validated range `1 ≤ first ≤ second` provided the
intermediate window arithmetic stays inside `u32`: `second + 1 < 2^32` (the
code evaluates `first + num_pages` before subtracting `1`, and this sum is
`second + 1`) and `16 * num_signatures + first < 2^32` (the final window's
candidate computation).  Under these bounds the checked evaluation succeeds
and agrees with the unchecked model.  At `second = 2^32 - 1` the claim as
stated fails (see the counterexample). -/
theorem checked_new_total (first second : Nat) (h1 : 1 ≤ first) (h2 : first ≤ second)
    (h3 : second + 1 < 2 ^ 32)
    (h4 : 16 * ((roundF32 (second - first + 1) + 15) / 16) + first < 2 ^ 32) :
    checked_DocumentInfo_new first second = some (DocumentInfo.new first second) := by
  have hsub : subU32 second first = some (second - first) := by
    unfold subU32; rw [if_pos h2]
  have hadd : addU32 (second - first) 1 = some (second - first + 1) := by
    unfold addU32; rw [if_pos (by omega)]
  have hfn : addU32 first (second - first + 1) = some (first + (second - first + 1)) := by
    unfold addU32; rw [if_pos (by omega)]
  have hld : subU32 (first + (second - first + 1)) 1 = some second := by
    unfold subU32; rw [if_pos (by omega)]
    congr 1
    omega
  have hsig : ∀ i ∈ List.range ((roundF32 (second - first + 1) + 15) / 16),
      checkedSignature first second i =
        some (signatureWindow first (second - first + 1) i) := by
    intro i hi
    rw [List.mem_range] at hi
    have e1 : addU32 i 1 = some (i + 1) := by
      unfold addU32; rw [if_pos (by omega)]
    have e2 : mulU32 (i + 1) DOC_PAGES_PER_SIGNATURE = some ((i + 1) * 16) := by
      unfold mulU32 DOC_PAGES_PER_SIGNATURE
      rw [if_pos (by omega)]
    have e3 : addU32 ((i + 1) * 16) first = some ((i + 1) * 16 + first) := by
      unfold addU32; rw [if_pos (by omega)]
    have e4 : subU32 ((i + 1) * 16 + first) 1 = some ((i + 1) * 16 + first - 1) := by
      unfold subU32; rw [if_pos (by omega)]
    have e5 : mulU32 DOC_PAGES_PER_SIGNATURE i = some (16 * i) := by
      unfold mulU32 DOC_PAGES_PER_SIGNATURE
      rw [if_pos (by omega)]
    have e6 : addU32 (16 * i) first = some (16 * i + first) := by
      unfold addU32; rw [if_pos (by omega)]
    simp only [checkedSignature, e1, e2, e3, e4, e5, e6, Option.bind_eq_bind,
      Option.some_bind, bind, pure]
    unfold signatureWindow DOC_PAGES_PER_SIGNATURE
    simp only [Option.some.injEq, Signature.mk.injEq]
    refine ⟨trivial, ?_, trivial⟩
    have harith : first + (second - first + 1) - 1 = second := by omega
    rw [harith]
  have hall : allSome ((List.range ((roundF32 (second - first + 1) + 15) / 16)).map
        (checkedSignature first second)) =
      some ((List.range ((roundF32 (second - first + 1) + 15) / 16)).map
        (signatureWindow first (second - first + 1))) :=
    allSome_map _ _ _ hsig
  simp only [checked_DocumentInfo_new, checked_get_signatures, hsub, hadd, hfn, hld,
    DOC_PAGES_PER_SHEET, DOC_PAGES_PER_SIGNATURE, hall, Option.bind_eq_bind,
    Option.some_bind, bind, pure]
  rfl

theorem checked_new_total_witness :
    checked_DocumentInfo_new 1 60 = some (DocumentInfo.new 1 60) :=
  checked_new_total 1 60 (by decide) (by decide) (by decide) (by decide)

/-- Counterexample to claim C8 as stated: the range `(2^32 - 1, 2^32 - 1)` is a
validated `u32` page range (`1 ≤ first ≤ second ≤ u32::MAX`), yet inside
`get_signatures` the computation `(0 + 1) * 16 + first_page_of_document`
overflows `u32` (debug builds panic; release builds wrap and produce a
nonsensical window), so `DocumentInfo::new` is not total over the full
validated `u32` domain. -/
theorem checked_new_total_cex :
    checked_DocumentInfo_new 4294967295 4294967295 = none := rfl

theorem sigKeyDigits_ne_nil (i : Nat) : sigKeyDigits i ≠ [] := by
  rw [sigKeyDigits_eq]
  split <;> simp

theorem sigKeyDigitsAux_lt_26 : ∀ fuel i, ∀ d ∈ sigKeyDigitsAux fuel i, d < 26 := by
  intro fuel
  induction fuel with
  | zero =>
    intro i d hd
    simp only [sigKeyDigitsAux, List.mem_singleton] at hd
    omega
  | succ fuel ih =>
    intro i d hd
    simp only [sigKeyDigitsAux] at hd
    split at hd
    · simp only [List.mem_singleton] at hd
      omega
    · rcases List.mem_cons.mp hd with h | h
      · omega
      · exact ih _ d h

theorem sigKeyDigits_lt_26 (i : Nat) : ∀ d ∈ sigKeyDigits i, d < 26 :=
  sigKeyDigitsAux_lt_26 i i

/-- Strict monotonicity of the digit lists under (length, then colex from the
most significant digit) ordering; the digit lists are least significant
first, so ties at the tail (more significant) end decide first. -/
theorem sigKeyDigits_order : ∀ j i, i < j →
    (sigKeyDigits i).length < (sigKeyDigits j).length ∨
    ((sigKeyDigits i).length = (sigKeyDigits j).length ∧
      colexLt (sigKeyDigits i) (sigKeyDigits j)) := by
  intro j
  induction j using Nat.strong_induction_on with
  | _ j IH =>
    intro i hij
    rw [sigKeyDigits_eq i, sigKeyDigits_eq j]
    by_cases hj : j / 26 = 0
    · have hi0 : i / 26 = 0 := by omega
      rw [if_pos hi0, if_pos hj]
      right
      exact ⟨rfl, Or.inr ⟨rfl, by omega⟩⟩
    · by_cases hi0 : i / 26 = 0
      · rw [if_pos hi0, if_neg hj]
        left
        have hlen : 0 < (sigKeyDigits (j / 26 - 1)).length :=
          List.length_pos.mpr (sigKeyDigits_ne_nil (j / 26 - 1))
        simp only [List.length_cons, List.length_nil]
        omega
      · rw [if_neg hi0, if_neg hj]
        by_cases heq : i / 26 = j / 26
        · rw [heq]
          exact Or.inr ⟨rfl, Or.inr ⟨rfl, by omega⟩⟩
        · have hlt : i / 26 - 1 < j / 26 - 1 := by
            have hdle : i / 26 ≤ j / 26 := Nat.div_le_div_right (Nat.le_of_lt hij)
            omega
          have hjj : j / 26 - 1 < j := by
            have := Nat.div_le_self j 26
            omega
          rcases IH (j / 26 - 1) hjj (i / 26 - 1) hlt with h | ⟨hlen, hcolex⟩
          · left
            simp only [List.length_cons]
            omega
          · right
            exact ⟨by simp only [List.length_cons]; omega, Or.inl hcolex⟩

theorem dlexLt_append_last : ∀ (as bs : List Nat) (a b : Nat),
    as.length = bs.length → (dlexLt as bs ∨ (as = bs ∧ a < b)) →
    dlexLt (as ++ [a]) (bs ++ [b]) := by
  intro as
  induction as with
  | nil =>
    intro bs a b hlen h
    cases bs with
    | nil =>
      rcases h with h | ⟨-, h⟩
      · exact absurd h (fun h => h)
      · exact Or.inl h
    | cons y bs => simp at hlen
  | cons x as ih =>
    intro bs a b hlen h
    cases bs with
    | nil => simp at hlen
    | cons y bs =>
      simp only [List.length_cons] at hlen
      rcases h with h | ⟨heq, hab⟩
      · rcases h with h | ⟨hxy, htail⟩
        · exact Or.inl h
        · exact Or.inr ⟨hxy, ih bs a b (by omega) (Or.inl htail)⟩
      · rcases List.cons.injEq .. ▸ heq with ⟨hxy, htail⟩
        exact Or.inr ⟨hxy, ih bs a b (by omega) (Or.inr ⟨htail, hab⟩)⟩

theorem colexLt_reverse : ∀ (as bs : List Nat), as.length = bs.length →
    colexLt as bs → dlexLt as.reverse bs.reverse := by
  intro as
  induction as with
  | nil =>
    intro bs hlen h
    cases bs with
    | nil => exact absurd h (fun h => h)
    | cons y bs => simp at hlen
  | cons x as ih =>
    intro bs hlen h
    cases bs with
    | nil => simp at hlen
    | cons y bs =>
      simp only [List.length_cons] at hlen
      simp only [List.reverse_cons]
      rcases h with h | ⟨heq, hxy⟩
      · exact dlexLt_append_last _ _ _ _ (by simp; omega) (Or.inl (ih bs (by omega) h))
      · exact dlexLt_append_last _ _ _ _ (by simp; omega) (Or.inr ⟨by rw [heq], hxy⟩)

theorem alphabetChar_lt : ∀ d1, d1 < 26 → ∀ d2, d2 < 26 → d1 < d2 →
    alphabetChar d1 < alphabetChar d2 := by decide

theorem alphabetChar_range : ∀ d, d < 26 → 'A' ≤ alphabetChar d ∧ alphabetChar d ≤ 'Z' := by
  decide

theorem dlexLt_map : ∀ (l1 l2 : List Nat), (∀ d ∈ l1, d < 26) → (∀ d ∈ l2, d < 26) →
    dlexLt l1 l2 → clexLt (l1.map alphabetChar) (l2.map alphabetChar) := by
  intro l1
  induction l1 with
  | nil =>
    intro l2 hb1 hb2 h
    cases l2 with
    | nil => exact absurd h (fun h => h)
    | cons y l2 => exact trivial
  | cons x l1 ih =>
    intro l2 hb1 hb2 h
    cases l2 with
    | nil => exact absurd h (fun h => h)
    | cons y l2 =>
      rcases h with h | ⟨hxy, htail⟩
      · exact Or.inl (alphabetChar_lt x (hb1 x (by simp)) y (hb2 y (by simp)) h)
      · refine Or.inr ⟨by rw [hxy], ?_⟩
        exact ih l2 (fun d hd => hb1 d (by simp [hd])) (fun d hd => hb2 d (by simp [hd])) htail

/-- Claim C2: `get_signature_key` is strictly order-preserving under the
ordering that compares string length first and then lexicographically, and
every returned label consists only of the characters `A` through `Z`. -/
theorem get_signature_key_strict_order :
    (∀ index1 index2 : Nat, index1 < index2 →
      keyBefore (get_signature_key index1) (get_signature_key index2))
  ∧ (∀ index : Nat, ∀ c ∈ (get_signature_key index).data, 'A' ≤ c ∧ c ≤ 'Z') := by
  constructor
  · intro i j hij
    unfold keyBefore get_signature_key
    have hlen : ∀ k : Nat,
        (String.mk (((sigKeyDigits k).map alphabetChar).reverse)).length
          = (sigKeyDigits k).length := by
      intro k
      show (((sigKeyDigits k).map alphabetChar).reverse).length = _
      rw [List.length_reverse, List.length_map]
    rw [hlen i, hlen j]
    rcases sigKeyDigits_order j i hij with h | ⟨heq, hcolex⟩
    · exact Or.inl h
    · right
      refine ⟨heq, ?_⟩
      show clexLt (((sigKeyDigits i).map alphabetChar).reverse)
        (((sigKeyDigits j).map alphabetChar).reverse)
      rw [← List.map_reverse, ← List.map_reverse]
      refine dlexLt_map _ _ ?_ ?_ (colexLt_reverse _ _ heq hcolex)
      · intro d hd
        exact sigKeyDigits_lt_26 i d (List.mem_reverse.mp hd)
      · intro d hd
        exact sigKeyDigits_lt_26 j d (List.mem_reverse.mp hd)
  · intro i c hc
    have hc2 : c ∈ ((sigKeyDigits i).map alphabetChar).reverse := hc
    have hc3 : c ∈ (sigKeyDigits i).map alphabetChar := List.mem_reverse.mp hc2
    rcases List.mem_map.mp hc3 with ⟨d, hd, hdc⟩
    rw [← hdc]
    exact alphabetChar_range d (sigKeyDigits_lt_26 i d hd)

theorem get_signature_key_strict_order_witness :
    keyBefore (get_signature_key 25) (get_signature_key 26) ∧ ('A' ≤ 'B' ∧ 'B' ≤ 'Z') :=
  ⟨get_signature_key_strict_order.1 25 26 (by decide),
   get_signature_key_strict_order.2 1 'B' (by decide)⟩

/-- Claim C9: `get_signature_key` is a total function over the whole
non-negative integer domain (it is defined as a total Lean function on `Nat`,
so it terminates without error on every index) and always returns a
non-empty string. -/
theorem get_signature_key_total_nonempty : ∀ i : Nat, 0 < (get_signature_key i).length := by
  intro i
  have h := List.length_pos.mpr (sigKeyDigits_ne_nil i)
  show 0 < (((sigKeyDigits i).map alphabetChar).reverse).length
  rw [List.length_reverse, List.length_map]
  exact h

theorem get_signature_key_total_nonempty_witness : 0 < (get_signature_key 0).length :=
  get_signature_key_total_nonempty 0
